import Mathlib

/- Shallow embedding of the arbitrage-scanner core of `prop_arb_scanner.py`
(and the shared best-odds logic of `best_lines.py`).  Python floats are
modelled as exact rationals, and Python's built-in `round(x, 2)`
(round-half-to-even) is modelled by `round2`. -/

/-- Round half to even to the nearest integer, as Python's built-in `round`
behaves on exact values. -/
def rhe (x : ℚ) : ℤ :=
  let f := Rat.floor x
  let r := x - (f : ℚ)
  if r < 1 / 2 then f
  else if 1 / 2 < r then f + 1
  else if f % 2 = 0 then f else f + 1

/-- Python's `round(x, 2)`: round to two decimal places. -/
def round2 (x : ℚ) : ℚ := (rhe (x * 100) : ℚ) / 100

/-- The record returned by `ArbScanner.calculate_stakes` on success. -/
structure ArbResult where
  stake_a : ℚ
  stake_b : ℚ
  profit : ℚ
  roi : ℚ
deriving DecidableEq

/-- `ArbScanner.calculate_stakes` from `prop_arb_scanner.py`, lines 97-120. -/
def calculate_stakes (total_budget odds_a odds_b : ℚ) : Option ArbResult :=
  if odds_a ≤ 1 ∨ odds_b ≤ 1 then none
  else
    let prob_a := 1 / odds_a
    let prob_b := 1 / odds_b
    let total_prob := prob_a + prob_b
    if total_prob ≥ 1 then none
    else
      let stake_a := total_budget * prob_a / total_prob
      let stake_b := total_budget * prob_b / total_prob
      let profit := stake_a * odds_a - total_budget
      let roi := profit / total_budget * 100
      some ⟨round2 stake_a, round2 stake_b, round2 profit, round2 roi⟩

/-- Division as Python evaluates it: a zero divisor raises
`ZeroDivisionError`, modelled as `.error ()`. -/
def cdiv (x y : ℚ) : Except Unit ℚ :=
  if y = 0 then .error () else .ok (x / y)

/-- `calculate_stakes` with every division it performs checked as Python
evaluates it; `.error ()` models a `ZeroDivisionError` escaping the
function, `.ok` models normal termination with the function's value. -/
def calculate_stakes_checked (total_budget odds_a odds_b : ℚ) :
    Except Unit (Option ArbResult) :=
  if odds_a ≤ 1 ∨ odds_b ≤ 1 then .ok none
  else do
    let prob_a ← cdiv 1 odds_a
    let prob_b ← cdiv 1 odds_b
    let total_prob := prob_a + prob_b
    if total_prob ≥ 1 then .ok none
    else do
      let stake_a ← cdiv (total_budget * prob_a) total_prob
      let stake_b ← cdiv (total_budget * prob_b) total_prob
      let profit := stake_a * odds_a - total_budget
      let roi_frac ← cdiv profit total_budget
      .ok (some ⟨round2 stake_a, round2 stake_b, round2 profit,
                 round2 (roi_frac * 100)⟩)

/-- One outcome entry of a market, as delivered by the odds API. -/
structure Outcome where
  name : String
  price : ℚ
deriving DecidableEq

/-- One market entry of a bookmaker. -/
structure Market where
  key : String
  outcomes : List Outcome
deriving DecidableEq

/-- One bookmaker block: inside a game, or inside the per-market
`market_data` list that `scan_game_markets` hands to `find_best_odds`. -/
structure Book where
  title : String
  markets : List Market
deriving DecidableEq

/-- A game as delivered by the odds API. -/
structure Game where
  away_team : String
  home_team : String
  bookmakers : List Book
deriving DecidableEq

/-- One quote: a bookmaker's price for one outcome label. -/
structure QuoteR where
  book : String
  name : String
  price : ℚ
deriving DecidableEq

/-- All quotes of a bookmaker list, in the order the triple loop
`for book / for market / for outcome` of `find_best_odds` visits them. -/
def quotesOf (bks : List Book) : List QuoteR :=
  bks.flatMap fun b => b.markets.flatMap fun m =>
    m.outcomes.map fun o => ⟨b.title, o.name, o.price⟩

/-- The distinct outcome labels of a bookmaker list (Python's
`outcome_names` set, as the deduplicated list of labels). -/
def marketLabels (bks : List Book) : List String :=
  ((quotesOf bks).map QuoteR.name).dedup

/-- A best-price record of `find_best_odds`;
`{"price": 0, "book": "", "name": ""}` is the initial sentinel. -/
structure BestPrice where
  price : ℚ
  book : String
  name : String
deriving DecidableEq

/-- The update of one side's running best record by one quote
(`if outcome['name'] == nm and price > best['price']: best.update(...)`). -/
def bestStep (nm : String) (b : BestPrice) (q : QuoteR) : BestPrice :=
  if q.price > b.price then ⟨q.price, q.book, nm⟩ else b

/-- One iteration of the maximization loop of `find_best_odds`: the
`if`/`elif` over the two canonical labels. -/
def bestPairStep (na nb : String) (p : BestPrice × BestPrice) (q : QuoteR) :
    BestPrice × BestPrice :=
  if q.name = na ∧ q.price > p.1.price then (⟨q.price, q.book, na⟩, p.2)
  else if q.name = nb ∧ q.price > p.2.price then (p.1, ⟨q.price, q.book, nb⟩)
  else p

/-- `find_best_odds` from `prop_arb_scanner.py` lines 122-148 (identical in
`best_lines.py` lines 90-116); `none` models the `return None, None` branch. -/
def find_best_odds (bks : List Book) : Option (BestPrice × BestPrice) :=
  match marketLabels bks with
  | [x, y] =>
    let name_a := if x < y then x else y
    let name_b := if x < y then y else x
    some ((quotesOf bks).foldl (bestPairStep name_a name_b)
      (⟨0, "", ""⟩, ⟨0, "", ""⟩))
  | _ => none

/-- The final best record of one side: fold of the side's update over the
quotes bearing its label (the loop only touches a side at its own label). -/
def bestSide (bks : List Book) (nm : String) : BestPrice :=
  ((quotesOf bks).filter fun q => q.name = nm).foldl (bestStep nm) ⟨0, "", ""⟩

/-- One market's stored result inside a game's results mapping. -/
structure MarketEntry where
  best_a : BestPrice
  best_b : BestPrice
  arb : Option ArbResult
deriving DecidableEq

/-- A game's scan result: the `game_results` dict of `scan_game_markets`
(the `markets` dict modelled as an association list in insertion order). -/
structure GameResult where
  game : String
  markets : List (String × MarketEntry)
deriving DecidableEq

/-- The body of the market loop of `scan_game_markets`: builds the
per-market `market_data`, skips empty or `None` or zero-`best_a` markets,
and otherwise appends the market's entry to the results mapping.  Note the
guard checks `best_a['price'] == 0` but not `best_b['price'] == 0`
(`prop_arb_scanner.py` line 173). -/
def scanStep (game : Game) (total_budget : ℚ)
    (acc : List (String × MarketEntry)) (mk : String × String) :
    List (String × MarketEntry) :=
  let market_data := game.bookmakers.filterMap fun book =>
    (book.markets.find? fun m => m.key = mk.1).map fun me =>
      ({ title := book.title, markets := [me] } : Book)
  if market_data.isEmpty then acc
  else
    match find_best_odds market_data with
    | none => acc
    | some (best_a, best_b) =>
      if best_a.price = 0 then acc
      else acc ++ [(mk.2, ⟨best_a, best_b,
        calculate_stakes total_budget best_a.price best_b.price⟩)]

/-- `ArbScanner.scan_game_markets` from `prop_arb_scanner.py` lines 150-184. -/
def scan_game_markets (game : Game) (markets : List (String × String))
    (total_budget : ℚ) : GameResult :=
  { game := game.away_team ++ " @ " ++ game.home_team
    markets := markets.foldl (scanStep game total_budget) [] }

/-- One iteration of the `sort_key` loop of `run_scanner`
(`prop_arb_scanner.py` lines 202-211): sets `arb_found` and lowers the
running minimum implied probability on arbitrage-bearing markets. -/
def rankStep (p : ℤ × ℚ) (mk : String × MarketEntry) : ℤ × ℚ :=
  match mk.2.arb with
  | some _ =>
    let prob := 1 / mk.2.best_a.price + 1 / mk.2.best_b.price
    (1, if prob < p.2 then prob else p.2)
  | none => p

/-- The `sort_key` of `run_scanner`: `(-arb_found, min_prob)` with
`arb_found` initially `0` and `min_prob` initially `2.0`. -/
def sort_key (g : GameResult) : ℤ × ℚ :=
  let st := g.markets.foldl rankStep (0, 2)
  (-st.1, st.2)

/-- Whether any market of the game carries an arbitrage result. -/
def hasArb (g : GameResult) : Bool :=
  g.markets.any fun mk => mk.2.arb.isSome

/-- The total implied probabilities `1/best_a + 1/best_b` of the game's
arbitrage-bearing markets, in order. -/
def arbProbs (g : GameResult) : List ℚ :=
  g.markets.filterMap fun mk =>
    mk.2.arb.map fun _ => 1 / mk.2.best_a.price + 1 / mk.2.best_b.price

/-- The second component of the game's sort key (the code's `min_prob`). -/
def gameMinProb (g : GameResult) : ℚ := (sort_key g).2

/-- Comparison used to model Python's stable `list.sort(key=sort_key)`:
lexicographic order on the key tuples. -/
def keyLe (g₁ g₂ : GameResult) : Bool :=
  decide ((sort_key g₁).1 < (sort_key g₂).1 ∨
    ((sort_key g₁).1 = (sort_key g₂).1 ∧ (sort_key g₁).2 ≤ (sort_key g₂).2))

/-- `all_game_results.sort(key=sort_key)`: a stable sort by `sort_key`. -/
def rankGames (l : List GameResult) : List GameResult := l.mergeSort keyLe

theorem rat_floor_eq_floor (x : ℚ) : Rat.floor x = ⌊x⌋ := by
  rw [Rat.floor_def', Rat.floor_def]

theorem abs_rhe_sub_le (x : ℚ) : |(rhe x : ℚ) - x| ≤ 1 / 2 := by
  have hle : (⌊x⌋ : ℚ) ≤ x := Int.floor_le x
  have hlt : x < ⌊x⌋ + 1 := Int.lt_floor_add_one x
  simp only [rhe, rat_floor_eq_floor]
  split_ifs with h1 h2 h3 <;>
    (rw [abs_le]; constructor <;> (push_cast; linarith))

theorem abs_round2_sub_le (x : ℚ) : |round2 x - x| ≤ 1 / 200 := by
  have h := abs_rhe_sub_le (x * 100)
  have e : round2 x - x = ((rhe (x * 100) : ℚ) - x * 100) / 100 := by
    unfold round2; ring
  rw [e, abs_div, abs_of_pos (by norm_num : (0 : ℚ) < 100)]
  linarith

theorem calculate_stakes_none_iff (total_budget odds_a odds_b : ℚ) :
    calculate_stakes total_budget odds_a odds_b = none ↔
      odds_a ≤ 1 ∨ odds_b ≤ 1 ∨ 1 / odds_a + 1 / odds_b ≥ 1 := by
  simp only [calculate_stakes]
  split_ifs with h1 h2
  · simpa using Or.imp id Or.inl h1
  · simpa using Or.inr (Or.inr h2)
  · push_neg at h1 h2
    simp only [reduceCtorEq, false_iff]
    push_neg
    exact ⟨h1.1, h1.2, h2⟩

theorem calculate_stakes_eq_some (total_budget odds_a odds_b : ℚ)
    (h₁ : 1 < odds_a) (h₂ : 1 < odds_b)
    (hT : 1 / odds_a + 1 / odds_b < 1) :
    calculate_stakes total_budget odds_a odds_b =
      some ⟨round2 (total_budget * (1 / odds_a) / (1 / odds_a + 1 / odds_b)),
            round2 (total_budget * (1 / odds_b) / (1 / odds_a + 1 / odds_b)),
            round2 (total_budget * (1 / odds_a) / (1 / odds_a + 1 / odds_b) * odds_a
                      - total_budget),
            round2 ((total_budget * (1 / odds_a) / (1 / odds_a + 1 / odds_b) * odds_a
                      - total_budget) / total_budget * 100)⟩ := by
  simp only [calculate_stakes]
  rw [if_neg (by push_neg; exact ⟨h₁, h₂⟩), if_neg (by simpa using hT)]

/-- C3: when both odds exceed 1, the total implied probability is below 1 and
the budget is positive, the profit computed by `calculate_stakes` before
rounding is `stake_a * odds_a - total_budget` and is strictly positive, the
pre-rounding ROI is `profit / total_budget * 100`, and rounding is applied
only at the output boundary: every returned field is `round2` of the raw
value. -/
theorem C3_profit_positive_roi (total_budget odds_a odds_b : ℚ)
    (h₁ : 1 < odds_a) (h₂ : 1 < odds_b)
    (hT : 1 / odds_a + 1 / odds_b < 1) (hb : 0 < total_budget) :
    0 < total_budget * (1 / odds_a) / (1 / odds_a + 1 / odds_b) * odds_a
          - total_budget ∧
    calculate_stakes total_budget odds_a odds_b =
      some ⟨round2 (total_budget * (1 / odds_a) / (1 / odds_a + 1 / odds_b)),
            round2 (total_budget * (1 / odds_b) / (1 / odds_a + 1 / odds_b)),
            round2 (total_budget * (1 / odds_a) / (1 / odds_a + 1 / odds_b) * odds_a
                      - total_budget),
            round2 ((total_budget * (1 / odds_a) / (1 / odds_a + 1 / odds_b) * odds_a
                      - total_budget) / total_budget * 100)⟩ := by
  have ha₁ : (0 : ℚ) < odds_a := lt_trans one_pos h₁
  have ha₂ : (0 : ℚ) < odds_b := lt_trans one_pos h₂
  have hT0 : (0 : ℚ) < 1 / odds_a + 1 / odds_b :=
    add_pos (by positivity) (by positivity)
  refine ⟨?_, calculate_stakes_eq_some _ _ _ h₁ h₂ hT⟩
  have key : total_budget * (1 / odds_a) / (1 / odds_a + 1 / odds_b) * odds_a
      = total_budget / (1 / odds_a + 1 / odds_b) := by
    field_simp
    ring
  rw [key, sub_pos, lt_div_iff₀ hT0]
  nlinarith

theorem C3_profit_positive_roi_witness :
    0 < (1 : ℚ) * (1 / 3) / (1 / 3 + 1 / 3) * 3 - 1 ∧
    calculate_stakes 1 3 3 =
      some ⟨round2 ((1 : ℚ) * (1 / 3) / (1 / 3 + 1 / 3)),
            round2 ((1 : ℚ) * (1 / 3) / (1 / 3 + 1 / 3)),
            round2 ((1 : ℚ) * (1 / 3) / (1 / 3 + 1 / 3) * 3 - 1),
            round2 (((1 : ℚ) * (1 / 3) / (1 / 3 + 1 / 3) * 3 - 1) / 1 * 100)⟩ :=
  C3_profit_positive_roi 1 3 3 (by norm_num) (by norm_num) (by norm_num) (by norm_num)

/-- C2 (amended): when both odds exceed 1 and the total implied probability
is below 1, the stakes computed by `calculate_stakes` before rounding equal
`total_budget * (1/odds) / total_prob` for each side and equalize the payout
on both outcomes exactly; the returned (rounded) stakes equalize the payouts
within `(odds_a + odds_b) / 200` — not within `0.01` in general, since each
stake is rounded by up to `0.005` and the error is scaled by the odds. -/
theorem C2_equal_payout (total_budget odds_a odds_b : ℚ)
    (h₁ : 1 < odds_a) (h₂ : 1 < odds_b)
    (hT : 1 / odds_a + 1 / odds_b < 1) :
    total_budget * (1 / odds_a) / (1 / odds_a + 1 / odds_b) * odds_a
      = total_budget * (1 / odds_b) / (1 / odds_a + 1 / odds_b) * odds_b ∧
    calculate_stakes total_budget odds_a odds_b =
      some ⟨round2 (total_budget * (1 / odds_a) / (1 / odds_a + 1 / odds_b)),
            round2 (total_budget * (1 / odds_b) / (1 / odds_a + 1 / odds_b)),
            round2 (total_budget * (1 / odds_a) / (1 / odds_a + 1 / odds_b) * odds_a
                      - total_budget),
            round2 ((total_budget * (1 / odds_a) / (1 / odds_a + 1 / odds_b) * odds_a
                      - total_budget) / total_budget * 100)⟩ ∧
    |round2 (total_budget * (1 / odds_a) / (1 / odds_a + 1 / odds_b)) * odds_a
      - round2 (total_budget * (1 / odds_b) / (1 / odds_a + 1 / odds_b)) * odds_b|
      ≤ (odds_a + odds_b) / 200 := by
  have ha₁ : (0 : ℚ) < odds_a := lt_trans one_pos h₁
  have ha₂ : (0 : ℚ) < odds_b := lt_trans one_pos h₂
  have hpay : total_budget * (1 / odds_a) / (1 / odds_a + 1 / odds_b) * odds_a
      = total_budget * (1 / odds_b) / (1 / odds_a + 1 / odds_b) * odds_b := by
    field_simp
    ring
  refine ⟨hpay, calculate_stakes_eq_some _ _ _ h₁ h₂ hT, ?_⟩
  set sA := total_budget * (1 / odds_a) / (1 / odds_a + 1 / odds_b) with hsA
  set sB := total_budget * (1 / odds_b) / (1 / odds_a + 1 / odds_b) with hsB
  have e1 := abs_round2_sub_le sA
  have e2 := abs_round2_sub_le sB
  rw [abs_le] at e1 e2 ⊢
  constructor <;> nlinarith [e1.1, e1.2, e2.1, e2.2]

theorem C2_equal_payout_witness :
    (1 : ℚ) * (1 / 3) / (1 / 3 + 1 / 3) * 3
      = (1 : ℚ) * (1 / 3) / (1 / 3 + 1 / 3) * 3 ∧
    calculate_stakes 1 3 3 =
      some ⟨round2 ((1 : ℚ) * (1 / 3) / (1 / 3 + 1 / 3)),
            round2 ((1 : ℚ) * (1 / 3) / (1 / 3 + 1 / 3)),
            round2 ((1 : ℚ) * (1 / 3) / (1 / 3 + 1 / 3) * 3 - 1),
            round2 (((1 : ℚ) * (1 / 3) / (1 / 3 + 1 / 3) * 3 - 1) / 1 * 100)⟩ ∧
    |round2 ((1 : ℚ) * (1 / 3) / (1 / 3 + 1 / 3)) * 3
      - round2 ((1 : ℚ) * (1 / 3) / (1 / 3 + 1 / 3)) * 3| ≤ ((3 : ℚ) + 3) / 200 :=
  C2_equal_payout 1 3 3 (by norm_num) (by norm_num) (by norm_num)

/-- C2 (counterexample): at `odds_a = 10`, `odds_b = 11`,
`total_budget = 0.252`, the hypotheses of the claim hold, yet the returned
rounded stakes are `0.13` and `0.12`, whose payouts `1.30` and `1.32` differ
by `0.02 > 0.01`. -/
theorem C2_counterexample :
    1 < (10 : ℚ) ∧ 1 < (11 : ℚ) ∧ 1 / (10 : ℚ) + 1 / 11 < 1 ∧
    calculate_stakes (63 / 250) 10 11 =
      some ⟨13 / 100, 12 / 100, 107 / 100, 42381 / 100⟩ ∧
    ¬(|(13 : ℚ) / 100 * 10 - 12 / 100 * 11| ≤ 1 / 100) := by
  refine ⟨by norm_num, by norm_num, by norm_num, ?_, by rw [abs_le]; norm_num⟩
  rw [calculate_stakes_eq_some (63 / 250) 10 11 (by norm_num) (by norm_num) (by norm_num)]
  norm_num [round2, rhe, rat_floor_eq_floor]

/-- C4 (amended): for `odds_a = 2.10`, `odds_b = 2.05`, `budget = 500`,
`calculate_stakes` detects an opportunity (`totalProb = 830/861 ≈ 0.9640 < 1`)
and returns `stake_a = 246.99`, `stake_b = 253.01` (payouts `≈ 518.67` on
each side), `profit = 18.67` and `roi = 3.73` — not the stake split
`243.90 / 256.10` with profit `12.2` and roi `2.44` stated in the spec. -/
theorem C4_scenario :
    1 / ((21 : ℚ) / 10) + 1 / ((41 : ℚ) / 20) < 1 ∧
    calculate_stakes 500 (21 / 10) (41 / 20) =
      some ⟨24699 / 100, 25301 / 100, 1867 / 100, 373 / 100⟩ := by
  refine ⟨by norm_num, ?_⟩
  rw [calculate_stakes_eq_some 500 (21 / 10) (41 / 20)
    (by norm_num) (by norm_num) (by norm_num)]
  norm_num [round2, rhe, rat_floor_eq_floor]

/-- C4 (counterexample): the stake on outcome A returned by the code at
`odds_a = 2.10`, `odds_b = 2.05`, `budget = 500` is `246.99`, which is more
than `3` away from the `243.90` claimed, so the claimed figures are not
approximations of what the code computes. -/
theorem C4_counterexample :
    (calculate_stakes 500 (21 / 10) (41 / 20)).map ArbResult.stake_a
      = some (24699 / 100) ∧
    ¬(|(24699 : ℚ) / 100 - 2439 / 10| ≤ 3) := by
  refine ⟨?_, by rw [abs_le]; norm_num⟩
  rw [calculate_stakes_eq_some 500 (21 / 10) (41 / 20)
    (by norm_num) (by norm_num) (by norm_num)]
  norm_num [round2, rhe, rat_floor_eq_floor]

/-- C10: when both odds exceed 1 and the total implied probability is below
1, the two pre-rounding stakes of `calculate_stakes` sum exactly to the
budget, and the two rounded stakes in the returned record sum to the budget
within `0.01`. -/
theorem C10_stakes_sum_budget (total_budget odds_a odds_b : ℚ)
    (h₁ : 1 < odds_a) (h₂ : 1 < odds_b)
    (hT : 1 / odds_a + 1 / odds_b < 1) :
    total_budget * (1 / odds_a) / (1 / odds_a + 1 / odds_b)
      + total_budget * (1 / odds_b) / (1 / odds_a + 1 / odds_b) = total_budget ∧
    ∀ r, calculate_stakes total_budget odds_a odds_b = some r →
      |r.stake_a + r.stake_b - total_budget| ≤ 1 / 100 := by
  have ha₁ : (0 : ℚ) < odds_a := lt_trans one_pos h₁
  have ha₂ : (0 : ℚ) < odds_b := lt_trans one_pos h₂
  have hT0 : (0 : ℚ) < 1 / odds_a + 1 / odds_b :=
    add_pos (by positivity) (by positivity)
  have hsum : total_budget * (1 / odds_a) / (1 / odds_a + 1 / odds_b)
      + total_budget * (1 / odds_b) / (1 / odds_a + 1 / odds_b) = total_budget := by
    rw [div_add_div_same, ← mul_add, mul_div_assoc,
      div_self (ne_of_gt hT0), mul_one]
  refine ⟨hsum, fun r hr => ?_⟩
  rw [calculate_stakes_eq_some _ _ _ h₁ h₂ hT] at hr
  have hr' := (Option.some_injective _ hr).symm
  set sA := total_budget * (1 / odds_a) / (1 / odds_a + 1 / odds_b) with hsA
  set sB := total_budget * (1 / odds_b) / (1 / odds_a + 1 / odds_b) with hsB
  have e1 := abs_round2_sub_le sA
  have e2 := abs_round2_sub_le sB
  rw [hr']
  simp only [ArbResult.stake_a, ArbResult.stake_b]
  rw [abs_le] at e1 e2 ⊢
  constructor <;> linarith [e1.1, e1.2, e2.1, e2.2]

theorem C10_stakes_sum_budget_witness :
    calculate_stakes 1 3 3 = some ⟨1 / 2, 1 / 2, 1 / 2, 50⟩ ∧
    |ArbResult.stake_a ⟨1 / 2, 1 / 2, 1 / 2, 50⟩
      + ArbResult.stake_b ⟨1 / 2, 1 / 2, 1 / 2, 50⟩ - 1| ≤ 1 / 100 := by
  have hcalc : calculate_stakes 1 3 3 = some ⟨1 / 2, 1 / 2, 1 / 2, 50⟩ := by
    rw [calculate_stakes_eq_some 1 3 3 (by norm_num) (by norm_num) (by norm_num)]
    norm_num [round2, rhe, rat_floor_eq_floor]
  exact ⟨hcalc,
    (C10_stakes_sum_budget 1 3 3 (by norm_num) (by norm_num) (by norm_num)).2
      ⟨1 / 2, 1 / 2, 1 / 2, 50⟩ hcalc⟩

theorem calculate_stakes_checked_eq (total_budget odds_a odds_b : ℚ)
    (hb : total_budget ≠ 0) :
    calculate_stakes_checked total_budget odds_a odds_b =
      .ok (calculate_stakes total_budget odds_a odds_b) := by
  by_cases h1 : odds_a ≤ 1 ∨ odds_b ≤ 1
  · simp [calculate_stakes_checked, calculate_stakes, h1]
  · push_neg at h1
    have ha₁ : (0 : ℚ) < odds_a := lt_trans one_pos h1.1
    have ha₂ : (0 : ℚ) < odds_b := lt_trans one_pos h1.2
    have hT0 : (0 : ℚ) < 1 / odds_a + 1 / odds_b :=
      add_pos (by positivity) (by positivity)
    have h1' : ¬(odds_a ≤ 1 ∨ odds_b ≤ 1) := by push_neg; exact h1
    have hT0' : odds_a⁻¹ + odds_b⁻¹ ≠ 0 := by
      simpa [one_div] using hT0.ne'
    by_cases h2 : (1 : ℚ) ≤ odds_a⁻¹ + odds_b⁻¹
    · simp [calculate_stakes_checked, calculate_stakes, h1', cdiv,
        ha₁.ne', ha₂.ne', bind, Except.bind, h2]
    · simp [calculate_stakes_checked, calculate_stakes, h1', cdiv,
        ha₁.ne', ha₂.ne', hT0', hb, bind, Except.bind, h2]

/-- C9 (amended): for every pair of odds and every nonzero budget,
`calculate_stakes` terminates normally, returning either a result or `none`
and raising no exception: every division it performs has a nonzero divisor,
and the checked evaluation agrees with the unchecked one.  (The unrestricted
claim is false: a zero budget reaches the `profit / total_budget` division.) -/
theorem C9_no_exception (total_budget odds_a odds_b : ℚ)
    (hb : total_budget ≠ 0) :
    calculate_stakes_checked total_budget odds_a odds_b =
      .ok (calculate_stakes total_budget odds_a odds_b) :=
  calculate_stakes_checked_eq total_budget odds_a odds_b hb

theorem C9_no_exception_witness :
    calculate_stakes_checked 1 3 3 = .ok (calculate_stakes 1 3 3) :=
  C9_no_exception 1 3 3 (by norm_num)

/-- C9 (counterexample): with odds `3`/`3` (a genuine arbitrage pair) and a
budget of `0`, the function reaches the ROI computation
`profit / total_budget` with a zero divisor, so Python raises
`ZeroDivisionError` instead of returning a value. -/
theorem C9_counterexample :
    calculate_stakes_checked 0 3 3 = .error () := by
  simp only [calculate_stakes_checked, cdiv]
  norm_num [bind, Except.bind]

/-- C1 (amended): for every pair of odds and every NONZERO budget, the
evaluation of `calculate_stakes` as Python performs it returns `None`
exactly when `odds_a ≤ 1`, or `odds_b ≤ 1`, or the total implied
probability `1/odds_a + 1/odds_b` is at least `1`; in every other case it
returns a result record.  (At a zero budget the code raises
`ZeroDivisionError` on an arbitrage pair instead of returning a record.) -/
theorem C1_checked_none_iff (total_budget odds_a odds_b : ℚ)
    (hb : total_budget ≠ 0) :
    (calculate_stakes_checked total_budget odds_a odds_b = Except.ok none ↔
      odds_a ≤ 1 ∨ odds_b ≤ 1 ∨ 1 / odds_a + 1 / odds_b ≥ 1) ∧
    (¬(odds_a ≤ 1 ∨ odds_b ≤ 1 ∨ 1 / odds_a + 1 / odds_b ≥ 1) →
      ∃ r, calculate_stakes_checked total_budget odds_a odds_b
        = Except.ok (some r)) := by
  rw [calculate_stakes_checked_eq total_budget odds_a odds_b hb]
  constructor
  · rw [show (Except.ok (calculate_stakes total_budget odds_a odds_b)
        = (Except.ok none : Except Unit (Option ArbResult)))
        ↔ calculate_stakes total_budget odds_a odds_b = none by
      simp]
    exact calculate_stakes_none_iff total_budget odds_a odds_b
  · intro hcond
    rcases hr : calculate_stakes total_budget odds_a odds_b with _ | r
    · exact absurd ((calculate_stakes_none_iff _ _ _).mp hr) hcond
    · exact ⟨r, rfl⟩

theorem C1_checked_none_iff_witness :
    (calculate_stakes_checked 1 3 3 = Except.ok none ↔
      (3 : ℚ) ≤ 1 ∨ (3 : ℚ) ≤ 1 ∨ 1 / (3 : ℚ) + 1 / 3 ≥ 1) ∧
    (¬((3 : ℚ) ≤ 1 ∨ (3 : ℚ) ≤ 1 ∨ 1 / (3 : ℚ) + 1 / 3 ≥ 1) →
      ∃ r, calculate_stakes_checked 1 3 3 = Except.ok (some r)) :=
  C1_checked_none_iff 1 3 3 (by norm_num)

/-- C1 (counterexample): at budget `0` with odds `4`/`4` — prices above 1
and total implied probability `1/2 < 1`, so none of the claim's `None`
conditions holds — the code raises `ZeroDivisionError` at the
`profit / total_budget` division instead of returning a result record. -/
theorem C1_counterexample :
    1 < (4 : ℚ) ∧ 1 / (4 : ℚ) + 1 / 4 < 1 ∧
    calculate_stakes_checked 0 4 4 = .error () := by
  refine ⟨by norm_num, by norm_num, ?_⟩
  simp only [calculate_stakes_checked, cdiv]
  norm_num [bind, Except.bind]

theorem bestPairStep_of_name_a (na nb : String) (hne : na ≠ nb)
    (p : BestPrice × BestPrice) (q : QuoteR) (h : q.name = na) :
    bestPairStep na nb p q = (bestStep na p.1 q, p.2) := by
  unfold bestPairStep bestStep
  by_cases hp : q.price > p.1.price
  · rw [if_pos ⟨h, hp⟩, if_pos hp]
  · rw [if_neg (fun hh => hp hh.2), if_neg (fun hh => hne (h.symm.trans hh.1)),
      if_neg hp]

theorem bestPairStep_of_name_b (na nb : String) (hne : na ≠ nb)
    (p : BestPrice × BestPrice) (q : QuoteR) (h : q.name = nb) :
    bestPairStep na nb p q = (p.1, bestStep nb p.2 q) := by
  unfold bestPairStep bestStep
  by_cases hp : q.price > p.2.price
  · rw [if_neg (fun hh => hne.symm (h.symm.trans hh.1)), if_pos ⟨h, hp⟩,
      if_pos hp]
  · rw [if_neg (fun hh => hne.symm (h.symm.trans hh.1)),
      if_neg (fun hh => hp hh.2), if_neg hp]

theorem bestPairStep_of_other (na nb : String)
    (p : BestPrice × BestPrice) (q : QuoteR) (ha : q.name ≠ na)
    (hb : q.name ≠ nb) : bestPairStep na nb p q = p := by
  unfold bestPairStep
  rw [if_neg (fun hh => ha hh.1), if_neg (fun hh => hb hh.1)]

theorem foldl_bestPairStep (na nb : String) (hne : na ≠ nb) :
    ∀ (qs : List QuoteR) (p : BestPrice × BestPrice),
    qs.foldl (bestPairStep na nb) p =
      ((qs.filter fun q => q.name = na).foldl (bestStep na) p.1,
       (qs.filter fun q => q.name = nb).foldl (bestStep nb) p.2)
  | [], p => by simp
  | q :: qs, p => by
    by_cases hqa : q.name = na
    · have hqb : ¬(q.name = nb) := fun hh => hne (hqa.symm.trans hh)
      rw [List.foldl_cons, bestPairStep_of_name_a na nb hne p q hqa,
        foldl_bestPairStep na nb hne qs _,
        List.filter_cons_of_pos (by simp [hqa]),
        List.filter_cons_of_neg (by simp [hqb]), List.foldl_cons]
    · by_cases hqb : q.name = nb
      · rw [List.foldl_cons, bestPairStep_of_name_b na nb hne p q hqb,
          foldl_bestPairStep na nb hne qs _,
          List.filter_cons_of_neg (by simp [hqa]),
          List.filter_cons_of_pos (by simp [hqb]), List.foldl_cons]
      · rw [List.foldl_cons, bestPairStep_of_other na nb p q hqa hqb,
          foldl_bestPairStep na nb hne qs _,
          List.filter_cons_of_neg (by simp [hqa]),
          List.filter_cons_of_neg (by simp [hqb])]

theorem bestStep_foldl_spec (nm : String) :
    ∀ (qs : List QuoteR) (b : BestPrice),
      b.price ≤ (qs.foldl (bestStep nm) b).price ∧
      (∀ q ∈ qs, q.price ≤ (qs.foldl (bestStep nm) b).price) ∧
      (qs.foldl (bestStep nm) b = b ∨
        (b.price < (qs.foldl (bestStep nm) b).price ∧
         ∃ q, qs.find? (fun x => x.price = (qs.foldl (bestStep nm) b).price)
            = some q ∧
          qs.foldl (bestStep nm) b = ⟨q.price, q.book, nm⟩))
  | [], b => by simp
  | q :: qs, b => by
    rw [List.foldl_cons]
    by_cases hp : q.price > b.price
    · have hstep : bestStep nm b q = ⟨q.price, q.book, nm⟩ := if_pos hp
      rw [hstep]
      obtain ⟨ih1, ih2, ih3⟩ := bestStep_foldl_spec nm qs ⟨q.price, q.book, nm⟩
      refine ⟨le_trans (le_of_lt hp) ih1, ?_, Or.inr ⟨lt_of_lt_of_le hp ih1, ?_⟩⟩
      · intro x hx
        rcases List.mem_cons.mp hx with rfl | hx
        · exact ih1
        · exact ih2 x hx
      · rcases ih3 with hsame | ⟨hlt, q', hfind, heq⟩
        · refine ⟨q, ?_, hsame⟩
          rw [List.find?_cons_of_pos]
          simp [hsame]
        · refine ⟨q', ?_, heq⟩
          rw [List.find?_cons_of_neg]
          · exact hfind
          · simp only [decide_eq_true_eq]
            intro hqe
            exact absurd hqe (by simpa using ne_of_lt hlt)
    · have hstep : bestStep nm b q = b := if_neg hp
      rw [hstep]
      obtain ⟨ih1, ih2, ih3⟩ := bestStep_foldl_spec nm qs b
      push_neg at hp
      refine ⟨ih1, ?_, ?_⟩
      · intro x hx
        rcases List.mem_cons.mp hx with rfl | hx
        · exact le_trans hp ih1
        · exact ih2 x hx
      · rcases ih3 with hsame | ⟨hlt, q', hfind, heq⟩
        · exact Or.inl hsame
        · refine Or.inr ⟨hlt, q', ?_, heq⟩
          rw [List.find?_cons_of_neg]
          · exact hfind
          · simp only [decide_eq_true_eq]
            intro hqe
            exact absurd hqe (ne_of_lt (lt_of_le_of_lt hp hlt))

theorem bestSide_spec (bks : List Book) (nm : String) :
    (∀ q ∈ (quotesOf bks).filter (fun q => q.name = nm),
        q.price ≤ (bestSide bks nm).price) ∧
    (bestSide bks nm = ⟨0, "", ""⟩ ∨
      ∃ q, ((quotesOf bks).filter fun q => q.name = nm).find?
          (fun x => x.price = (bestSide bks nm).price) = some q ∧
        bestSide bks nm = ⟨q.price, q.book, nm⟩) := by
  obtain ⟨-, s2, s3⟩ := bestStep_foldl_spec nm
    ((quotesOf bks).filter fun q => q.name = nm) ⟨0, "", ""⟩
  refine ⟨s2, ?_⟩
  rcases s3 with h | ⟨-, q, hfind, heq⟩
  · exact Or.inl h
  · exact Or.inr ⟨q, hfind, heq⟩

theorem foldl_pair_eq_bestSide (bks : List Book) (na nb : String)
    (hne : na ≠ nb) :
    (quotesOf bks).foldl (bestPairStep na nb) (⟨0, "", ""⟩, ⟨0, "", ""⟩)
      = (bestSide bks na, bestSide bks nb) := by
  rw [foldl_bestPairStep na nb hne]
  rfl

theorem find_best_odds_eq_of_lt (bks : List Book) (x y : String)
    (hxy : marketLabels bks = [x, y]) (h : x < y) :
    find_best_odds bks = some (bestSide bks x, bestSide bks y) := by
  have h0 : find_best_odds bks =
      some ((quotesOf bks).foldl
        (bestPairStep (if x < y then x else y) (if x < y then y else x))
        (⟨0, "", ""⟩, ⟨0, "", ""⟩)) := by
    unfold find_best_odds
    rw [hxy]
  rw [h0, if_pos h, if_pos h, foldl_pair_eq_bestSide bks x y (ne_of_lt h)]

theorem find_best_odds_eq_of_gt (bks : List Book) (x y : String)
    (hxy : marketLabels bks = [x, y]) (h : y < x) :
    find_best_odds bks = some (bestSide bks y, bestSide bks x) := by
  have h0 : find_best_odds bks =
      some ((quotesOf bks).foldl
        (bestPairStep (if x < y then x else y) (if x < y then y else x))
        (⟨0, "", ""⟩, ⟨0, "", ""⟩)) := by
    unfold find_best_odds
    rw [hxy]
  rw [h0, if_neg (asymm h), if_neg (asymm h),
    foldl_pair_eq_bestSide bks y x (ne_of_lt h)]

theorem find_best_odds_assemble (bks : List Book) (na nb : String)
    (hab : na < nb) (hmem_a : na ∈ marketLabels bks)
    (hmem_b : nb ∈ marketLabels bks)
    (heval : find_best_odds bks = some (bestSide bks na, bestSide bks nb))
    (hpos : ∀ q ∈ quotesOf bks, 0 < q.price) :
    ∃ ba bb, find_best_odds bks = some (ba, bb) ∧
      ba.name ∈ (quotesOf bks).map QuoteR.name ∧
      bb.name ∈ (quotesOf bks).map QuoteR.name ∧
      ba.name < bb.name ∧
      (∀ q ∈ quotesOf bks, q.name = ba.name → q.price ≤ ba.price) ∧
      (∀ q ∈ quotesOf bks, q.name = bb.name → q.price ≤ bb.price) ∧
      (∃ q, ((quotesOf bks).filter fun x => x.name = ba.name).find?
          (fun x => x.price = ba.price) = some q ∧
        ba = ⟨q.price, q.book, ba.name⟩) ∧
      (∃ q, ((quotesOf bks).filter fun x => x.name = bb.name).find?
          (fun x => x.price = bb.price) = some q ∧
        bb = ⟨q.price, q.book, bb.name⟩) := by
  obtain ⟨sa2, sa3⟩ := bestSide_spec bks na
  obtain ⟨sb2, sb3⟩ := bestSide_spec bks nb
  obtain ⟨qa, hqa_mem, hqa_name⟩ :=
    List.mem_map.mp (List.mem_dedup.mp hmem_a)
  obtain ⟨qb, hqb_mem, hqb_name⟩ :=
    List.mem_map.mp (List.mem_dedup.mp hmem_b)
  have hqa_filter : qa ∈ (quotesOf bks).filter (fun q => q.name = na) :=
    List.mem_filter.mpr ⟨hqa_mem, by simp [hqa_name]⟩
  have hqb_filter : qb ∈ (quotesOf bks).filter (fun q => q.name = nb) :=
    List.mem_filter.mpr ⟨hqb_mem, by simp [hqb_name]⟩
  rcases sa3 with hsent | ⟨qa', hfinda, heqa⟩
  · have h1 := sa2 qa hqa_filter
    rw [hsent] at h1
    exact absurd h1 (by simpa using hpos qa hqa_mem)
  rcases sb3 with hsent | ⟨qb', hfindb, heqb⟩
  · have h1 := sb2 qb hqb_filter
    rw [hsent] at h1
    exact absurd h1 (by simpa using hpos qb hqb_mem)
  refine ⟨bestSide bks na, bestSide bks nb, heval,
    ?_, ?_, ?_, ?_, ?_, ?_, ?_⟩
  · rw [heqa]
    exact List.mem_dedup.mp hmem_a
  · rw [heqb]
    exact List.mem_dedup.mp hmem_b
  · rw [heqa, heqb]
    exact hab
  · intro q hq hqn
    simp only [heqa] at hqn
    exact sa2 q (List.mem_filter.mpr ⟨hq, by simp [hqn]⟩)
  · intro q hq hqn
    simp only [heqb] at hqn
    exact sb2 q (List.mem_filter.mpr ⟨hq, by simp [hqn]⟩)
  · simp only [heqa] at hfinda ⊢
    exact ⟨qa', hfinda, rfl⟩
  · simp only [heqb] at hfindb ⊢
    exact ⟨qb', hfindb, rfl⟩

theorem find_best_odds_spec (bks : List Book)
    (hlen : (marketLabels bks).length = 2)
    (hpos : ∀ q ∈ quotesOf bks, 0 < q.price) :
    ∃ ba bb, find_best_odds bks = some (ba, bb) ∧
      ba.name ∈ (quotesOf bks).map QuoteR.name ∧
      bb.name ∈ (quotesOf bks).map QuoteR.name ∧
      ba.name < bb.name ∧
      (∀ q ∈ quotesOf bks, q.name = ba.name → q.price ≤ ba.price) ∧
      (∀ q ∈ quotesOf bks, q.name = bb.name → q.price ≤ bb.price) ∧
      (∃ q, ((quotesOf bks).filter fun x => x.name = ba.name).find?
          (fun x => x.price = ba.price) = some q ∧
        ba = ⟨q.price, q.book, ba.name⟩) ∧
      (∃ q, ((quotesOf bks).filter fun x => x.name = bb.name).find?
          (fun x => x.price = bb.price) = some q ∧
        bb = ⟨q.price, q.book, bb.name⟩) := by
  obtain ⟨x, y, hxy⟩ := List.length_eq_two.mp hlen
  have hnd : (marketLabels bks).Nodup := List.nodup_dedup _
  rw [hxy] at hnd
  have hne : x ≠ y := by simpa using hnd
  rcases lt_or_gt_of_ne hne with hlt | hgt
  · exact find_best_odds_assemble bks x y hlt
      (by rw [hxy]; simp) (by rw [hxy]; simp)
      (find_best_odds_eq_of_lt bks x y hxy hlt) hpos
  · exact find_best_odds_assemble bks y x hgt
      (by rw [hxy]; simp) (by rw [hxy]; simp)
      (find_best_odds_eq_of_gt bks x y hxy hgt) hpos

theorem find_best_odds_none_iff (bks : List Book) :
    find_best_odds bks = none ↔ (marketLabels bks).length ≠ 2 := by
  rcases h : marketLabels bks with _ | ⟨x, _ | ⟨y, _ | ⟨z, t⟩⟩⟩ <;>
    simp [find_best_odds, h]

/-- C6 (amended): `find_best_odds` returns the absence marker exactly when
the number of distinct outcome labels differs from 2; when it is exactly 2
and every quote's price is positive, it returns two records whose labels are
among the quote labels, with the lexicographically smaller label as outcome
A.  (Without the positivity proviso the claim fails: a label all of whose
quotes have price ≤ 0 leaves the `""` sentinel in the returned record.) -/
theorem C6_two_labels (bks : List Book) :
    (find_best_odds bks = none ↔ (marketLabels bks).length ≠ 2) ∧
    ((marketLabels bks).length = 2 → (∀ q ∈ quotesOf bks, 0 < q.price) →
      ∃ ba bb, find_best_odds bks = some (ba, bb) ∧
        ba.name ∈ (quotesOf bks).map QuoteR.name ∧
        bb.name ∈ (quotesOf bks).map QuoteR.name ∧
        ba.name < bb.name) := by
  refine ⟨find_best_odds_none_iff bks, fun hlen hpos => ?_⟩
  obtain ⟨ba, bb, h1, h2, h3, h4, -, -, -, -⟩ :=
    find_best_odds_spec bks hlen hpos
  exact ⟨ba, bb, h1, h2, h3, h4⟩

theorem C6_two_labels_witness :
    (marketLabels [⟨"B1", [⟨"totals", [⟨"Over", 2⟩, ⟨"Under", 3⟩]⟩]⟩]).length
        = 2 ∧
    ∃ ba bb,
      find_best_odds [⟨"B1", [⟨"totals", [⟨"Over", 2⟩, ⟨"Under", 3⟩]⟩]⟩]
          = some (ba, bb) ∧
      ba.name ∈ (quotesOf
          [⟨"B1", [⟨"totals", [⟨"Over", 2⟩, ⟨"Under", 3⟩]⟩]⟩]).map
            QuoteR.name ∧
      bb.name ∈ (quotesOf
          [⟨"B1", [⟨"totals", [⟨"Over", 2⟩, ⟨"Under", 3⟩]⟩]⟩]).map
            QuoteR.name ∧
      ba.name < bb.name := by
  have hlen : (marketLabels
      [⟨"B1", [⟨"totals", [⟨"Over", 2⟩, ⟨"Under", 3⟩]⟩]⟩]).length = 2 := by
    simp [marketLabels, quotesOf]
  have hpos : ∀ q ∈ quotesOf
      [⟨"B1", [⟨"totals", [⟨"Over", 2⟩, ⟨"Under", 3⟩]⟩]⟩], 0 < q.price := by
    intro q hq
    simp [quotesOf] at hq
    rcases hq with rfl | rfl <;> norm_num
  exact ⟨hlen, (C6_two_labels _).2 hlen hpos⟩

/-- C6 (counterexample): a snapshot with two distinct labels `X` (price `0`)
and `Y` (price `2`) is not skipped, yet the returned record for outcome A
carries the sentinel label `""`, which is not one of the distinct labels:
the claim that the returned labels are the sorted distinct labels fails. -/
theorem C6_counterexample :
    marketLabels [⟨"B1", [⟨"totals", [⟨"X", 0⟩, ⟨"Y", 2⟩]⟩]⟩] = ["X", "Y"] ∧
    find_best_odds [⟨"B1", [⟨"totals", [⟨"X", 0⟩, ⟨"Y", 2⟩]⟩]⟩]
      = some (⟨0, "", ""⟩, ⟨2, "B1", "Y"⟩) ∧
    ("" : String) ∉ marketLabels [⟨"B1", [⟨"totals", [⟨"X", 0⟩, ⟨"Y", 2⟩]⟩]⟩] := by
  have hxy : marketLabels [⟨"B1", [⟨"totals", [⟨"X", 0⟩, ⟨"Y", 2⟩]⟩]⟩]
      = ["X", "Y"] := by
    simp [marketLabels, quotesOf]
  have hlt : ("X" : String) < "Y" := by
    simp
    decide
  refine ⟨hxy, ?_, by simp [hxy]⟩
  rw [find_best_odds_eq_of_lt _ "X" "Y" hxy hlt]
  decide

/-- C7 (amended): for a snapshot with exactly 2 distinct labels all of whose
quotes have positive price, each returned record's price is at least the
price of every quote bearing its label (maximality), and each record equals
the first quote in scan order among its label's quotes that attains that
price — so the price is some quote's price (no fabrication) and ties at the
maximum are first-seen-wins.  (Without the positivity proviso the
no-fabrication part fails: an all-negative label leaves the sentinel price
`0`, which no quote carries.) -/
theorem C7_maximality_no_fabrication (bks : List Book)
    (hlen : (marketLabels bks).length = 2)
    (hpos : ∀ q ∈ quotesOf bks, 0 < q.price) :
    ∃ ba bb, find_best_odds bks = some (ba, bb) ∧
      (∀ q ∈ quotesOf bks, q.name = ba.name → q.price ≤ ba.price) ∧
      (∀ q ∈ quotesOf bks, q.name = bb.name → q.price ≤ bb.price) ∧
      (∃ q, ((quotesOf bks).filter fun x => x.name = ba.name).find?
          (fun x => x.price = ba.price) = some q ∧
        ba = ⟨q.price, q.book, ba.name⟩) ∧
      (∃ q, ((quotesOf bks).filter fun x => x.name = bb.name).find?
          (fun x => x.price = bb.price) = some q ∧
        bb = ⟨q.price, q.book, bb.name⟩) := by
  obtain ⟨ba, bb, h1, -, -, -, h5, h6, h7, h8⟩ :=
    find_best_odds_spec bks hlen hpos
  exact ⟨ba, bb, h1, h5, h6, h7, h8⟩

theorem C7_maximality_no_fabrication_witness :
    (marketLabels [⟨"B1", [⟨"totals", [⟨"Over", 2⟩, ⟨"Under", 3⟩]⟩]⟩]).length
        = 2 ∧
    ∃ ba bb,
      find_best_odds [⟨"B1", [⟨"totals", [⟨"Over", 2⟩, ⟨"Under", 3⟩]⟩]⟩]
          = some (ba, bb) ∧
      (∀ q ∈ quotesOf [⟨"B1", [⟨"totals", [⟨"Over", 2⟩, ⟨"Under", 3⟩]⟩]⟩],
        q.name = ba.name → q.price ≤ ba.price) ∧
      (∀ q ∈ quotesOf [⟨"B1", [⟨"totals", [⟨"Over", 2⟩, ⟨"Under", 3⟩]⟩]⟩],
        q.name = bb.name → q.price ≤ bb.price) ∧
      (∃ q, ((quotesOf
            [⟨"B1", [⟨"totals", [⟨"Over", 2⟩, ⟨"Under", 3⟩]⟩]⟩]).filter
              fun x => x.name = ba.name).find?
          (fun x => x.price = ba.price) = some q ∧
        ba = ⟨q.price, q.book, ba.name⟩) ∧
      (∃ q, ((quotesOf
            [⟨"B1", [⟨"totals", [⟨"Over", 2⟩, ⟨"Under", 3⟩]⟩]⟩]).filter
              fun x => x.name = bb.name).find?
          (fun x => x.price = bb.price) = some q ∧
        bb = ⟨q.price, q.book, bb.name⟩) := by
  have hlen : (marketLabels
      [⟨"B1", [⟨"totals", [⟨"Over", 2⟩, ⟨"Under", 3⟩]⟩]⟩]).length = 2 := by
    simp [marketLabels, quotesOf]
  have hpos : ∀ q ∈ quotesOf
      [⟨"B1", [⟨"totals", [⟨"Over", 2⟩, ⟨"Under", 3⟩]⟩]⟩], 0 < q.price := by
    intro q hq
    simp [quotesOf] at hq
    rcases hq with rfl | rfl <;> norm_num
  exact ⟨hlen, C7_maximality_no_fabrication _ hlen hpos⟩

/-- C7 (counterexample): with quotes `X` at price `-1` and `Y` at price `2`,
the returned record for outcome A carries price `0`, which is the price of
no quote in the input: the no-fabrication part of the claim fails. -/
theorem C7_counterexample :
    marketLabels [⟨"B1", [⟨"t", [⟨"X", -1⟩, ⟨"Y", 2⟩]⟩]⟩] = ["X", "Y"] ∧
    find_best_odds [⟨"B1", [⟨"t", [⟨"X", -1⟩, ⟨"Y", 2⟩]⟩]⟩]
      = some (⟨0, "", ""⟩, ⟨2, "B1", "Y"⟩) ∧
    ∀ q ∈ quotesOf [⟨"B1", [⟨"t", [⟨"X", -1⟩, ⟨"Y", 2⟩]⟩]⟩], q.price ≠ 0 := by
  have hxy : marketLabels [⟨"B1", [⟨"t", [⟨"X", -1⟩, ⟨"Y", 2⟩]⟩]⟩]
      = ["X", "Y"] := by
    simp [marketLabels, quotesOf]
  have hlt : ("X" : String) < "Y" := by
    simp
    decide
  refine ⟨hxy, ?_, ?_⟩
  · rw [find_best_odds_eq_of_lt _ "X" "Y" hxy hlt]
    decide
  · intro q hq
    simp [quotesOf] at hq
    rcases hq with rfl | rfl <;> norm_num

/-- C5: evaluation of the code at an input that refutes the claim.  In a
game whose only market has quotes `Over` at price `2` and `Under` at price
`0`, the scan leaves the `Under` side at the zero sentinel, yet the market
is NOT skipped: the guard only checks `best_a['price'] == 0`, never
`best_b['price'] == 0`, so an entry whose `best_b` price is the zero
sentinel appears in the game's results mapping. -/
theorem C5_zero_sentinel_not_skipped :
    (scan_game_markets
        ⟨"Away", "Home", [⟨"B1", [⟨"totals", [⟨"Over", 2⟩, ⟨"Under", 0⟩]⟩]⟩]⟩
        [("totals", "Game Total O/U")] 500).markets
      = [("Game Total O/U", ⟨⟨2, "B1", "Over"⟩, ⟨0, "", ""⟩, none⟩)] := by
  have hxy : marketLabels [⟨"B1", [⟨"totals", [⟨"Over", 2⟩, ⟨"Under", 0⟩]⟩]⟩]
      = ["Over", "Under"] := by
    decide
  have hlt : ("Over" : String) < "Under" := by
    simp
    decide
  have hfbo : find_best_odds [⟨"B1", [⟨"totals", [⟨"Over", 2⟩, ⟨"Under", 0⟩]⟩]⟩]
      = some (⟨2, "B1", "Over"⟩, ⟨0, "", ""⟩) := by
    rw [find_best_odds_eq_of_lt _ "Over" "Under" hxy hlt]
    decide
  have hmd : ([⟨"B1", [⟨"totals", [⟨"Over", 2⟩, ⟨"Under", 0⟩]⟩]⟩] :
      List Book).filterMap (fun book =>
        (book.markets.find? fun m => m.key = "totals").map fun me =>
          ({ title := book.title, markets := [me] } : Book))
      = [⟨"B1", [⟨"totals", [⟨"Over", 2⟩, ⟨"Under", 0⟩]⟩]⟩] := by
    decide
  have harb : calculate_stakes 500 2 0 = none := by
    unfold calculate_stakes
    rw [if_pos (Or.inr (by norm_num))]
  norm_num [scan_game_markets, scanStep, hmd, hfbo, harb]

theorem foldl_rankStep_fst : ∀ (ms : List (String × MarketEntry)) (p : ℤ × ℚ),
    (ms.foldl rankStep p).1
      = if ms.any (fun mk => mk.2.arb.isSome) then 1 else p.1
  | [], p => by simp
  | mk :: ms, p => by
    rw [List.foldl_cons, List.any_cons]
    rcases harb : mk.2.arb with _ | a
    · rw [show rankStep p mk = p by simp [rankStep, harb],
        foldl_rankStep_fst ms p]
      cases hany : ms.any fun mk => mk.2.arb.isSome <;> simp [hany]
    · rw [show rankStep p mk = (1,
          if 1 / mk.2.best_a.price + 1 / mk.2.best_b.price < p.2
          then 1 / mk.2.best_a.price + 1 / mk.2.best_b.price else p.2)
          by simp [rankStep, harb],
        foldl_rankStep_fst ms]
      simp

theorem foldl_rankStep_snd : ∀ (ms : List (String × MarketEntry)) (p : ℤ × ℚ),
    (ms.foldl rankStep p).2
      = (ms.filterMap fun mk => mk.2.arb.map fun _ =>
          1 / mk.2.best_a.price + 1 / mk.2.best_b.price).foldl
          (fun m q => if q < m then q else m) p.2
  | [], p => by simp
  | mk :: ms, p => by
    rcases harb : mk.2.arb with _ | a <;>
      simp [rankStep, harb, List.filterMap_cons, foldl_rankStep_snd ms]

theorem minFold_spec : ∀ (ps : List ℚ) (m : ℚ),
    ps.foldl (fun m q => if q < m then q else m) m ≤ m ∧
    (∀ p ∈ ps, ps.foldl (fun m q => if q < m then q else m) m ≤ p) ∧
    (ps.foldl (fun m q => if q < m then q else m) m = m ∨
      ps.foldl (fun m q => if q < m then q else m) m ∈ ps)
  | [], m => by simp
  | q :: ps, m => by
    rw [List.foldl_cons]
    obtain ⟨ih1, ih2, ih3⟩ := minFold_spec ps (if q < m then q else m)
    have hqm : (if q < m then q else m) ≤ m := by
      split_ifs with h
      · exact le_of_lt h
      · exact le_refl m
    have hqq : (if q < m then q else m) ≤ q := by
      split_ifs with h
      · exact le_refl q
      · exact le_of_not_lt h
    refine ⟨le_trans ih1 hqm, ?_, ?_⟩
    · intro p hp
      rcases List.mem_cons.mp hp with rfl | hp
      · exact le_trans ih1 hqq
      · exact ih2 p hp
    · rcases ih3 with he | hm
      · by_cases h : q < m
        · rw [he, if_pos h]
          exact Or.inr (List.mem_cons_self q ps)
        · rw [he, if_neg h]
          exact Or.inl rfl
      · exact Or.inr (List.mem_cons_of_mem q hm)

theorem sort_key_fst (g : GameResult) :
    (sort_key g).1 = if hasArb g then -1 else 0 := by
  simp only [sort_key, hasArb]
  rw [foldl_rankStep_fst]
  split_ifs <;> simp

theorem sort_key_snd (g : GameResult) :
    (sort_key g).2
      = (arbProbs g).foldl (fun m q => if q < m then q else m) 2 := by
  simp only [sort_key, arbProbs]
  rw [foldl_rankStep_snd]

theorem sort_key_of_no_arb (g : GameResult) (h : hasArb g = false) :
    sort_key g = (0, 2) := by
  have hnone : ∀ mk ∈ g.markets, mk.2.arb = none := by
    intro mk hmk
    by_contra hne
    rcases Option.ne_none_iff_exists'.mp hne with ⟨a, ha⟩
    have htrue : hasArb g = true := by
      simp only [hasArb, List.any_eq_true]
      exact ⟨mk, hmk, by simp [ha]⟩
    rw [htrue] at h
    cases h
  have hnil : arbProbs g = [] := by
    rw [arbProbs, List.filterMap_eq_nil_iff]
    intro mk hmk
    rw [hnone mk hmk]
    rfl
  have h1 := sort_key_fst g
  rw [h] at h1
  have h2 := sort_key_snd g
  rw [hnil, List.foldl_nil] at h2
  simp at h1
  exact Prod.ext h1 h2

theorem keyLe_trans : ∀ a b c : GameResult, keyLe a b → keyLe b c → keyLe a c := by
  intro a b c hab hbc
  simp only [keyLe, decide_eq_true_eq] at hab hbc ⊢
  rcases hab with h1 | ⟨h1, h2⟩ <;> rcases hbc with h3 | ⟨h3, h4⟩
  · exact Or.inl (lt_trans h1 h3)
  · exact Or.inl (by rw [← h3]; exact h1)
  · exact Or.inl (by rw [h1]; exact h3)
  · exact Or.inr ⟨h1.trans h3, le_trans h2 h4⟩

theorem keyLe_total : ∀ a b : GameResult, keyLe a b || keyLe b a := by
  intro a b
  simp only [keyLe, Bool.or_eq_true, decide_eq_true_eq]
  rcases lt_trichotomy (sort_key a).1 (sort_key b).1 with h | h | h
  · exact Or.inl (Or.inl h)
  · rcases le_total (sort_key a).2 (sort_key b).2 with h2 | h2
    · exact Or.inl (Or.inr ⟨h, h2⟩)
    · exact Or.inr (Or.inr ⟨h.symm, h2⟩)
  · exact Or.inr (Or.inl h)

/-- C8: for every list of game scan results (well-formed in that every
arbitrage-bearing market carries best prices above 1, as `scan_game_markets`
guarantees), the ranking sort places every game that has an arbitrage result
before every game that has none; among games with an arbitrage result games
are ordered by ascending minimum total implied probability
(`1/best_a + 1/best_b`, minimized over the game's arbitrage-bearing
markets — the code's `min_prob` is exactly that minimum); and games with no
arbitrage result keep their relative input order. -/
theorem C8_ranking_sort (l : List GameResult)
    (hwf : ∀ g ∈ l, ∀ mk ∈ g.markets, mk.2.arb.isSome = true →
      1 < mk.2.best_a.price ∧ 1 < mk.2.best_b.price) :
    (rankGames l).Pairwise
      (fun a b => hasArb b = true → hasArb a = true) ∧
    (rankGames l).Pairwise
      (fun a b => hasArb a = true → hasArb b = true →
        gameMinProb a ≤ gameMinProb b) ∧
    (rankGames l).filter (fun g => !(hasArb g))
      = l.filter (fun g => !(hasArb g)) ∧
    ∀ g ∈ l, hasArb g = true →
      gameMinProb g ∈ arbProbs g ∧ ∀ p ∈ arbProbs g, gameMinProb g ≤ p := by
  have hpair := List.sorted_mergeSort keyLe_trans keyLe_total l
  refine ⟨?_, ?_, ?_, ?_⟩
  · refine hpair.imp ?_
    intro a b hle hb
    by_contra ha
    simp only [Bool.not_eq_true] at ha
    simp only [keyLe, decide_eq_true_eq] at hle
    have hka : (sort_key a).1 = 0 := by rw [sort_key_fst, ha]; simp
    have hkb : (sort_key b).1 = -1 := by rw [sort_key_fst, hb]; simp
    rw [hka, hkb] at hle
    rcases hle with h | ⟨h, -⟩ <;> omega
  · refine hpair.imp ?_
    intro a b hle ha hb
    simp only [keyLe, decide_eq_true_eq] at hle
    have hka : (sort_key a).1 = -1 := by rw [sort_key_fst, ha]; simp
    have hkb : (sort_key b).1 = -1 := by rw [sort_key_fst, hb]; simp
    rw [hka, hkb] at hle
    rcases hle with h | ⟨-, h⟩
    · omega
    · exact h
  · have hidem : (l.filter fun g => !(hasArb g)).filter (fun g => !(hasArb g))
        = l.filter fun g => !(hasArb g) :=
      List.filter_eq_self.mpr fun a ha => (List.mem_filter.mp ha).2
    have hpw : (l.filter fun g => !(hasArb g)).Pairwise
        (fun a b => keyLe a b = true) :=
      List.pairwise_of_forall_mem_list (by
        intro a ha b hb
        have ha' : hasArb a = false := by
          simpa using (List.mem_filter.mp ha).2
        have hb' : hasArb b = false := by
          simpa using (List.mem_filter.mp hb).2
        simp [keyLe, sort_key_of_no_arb a ha', sort_key_of_no_arb b hb'])
    have hc : List.Sublist (l.filter fun g => !(hasArb g)) (rankGames l) :=
      List.sublist_mergeSort keyLe_trans keyLe_total hpw (List.filter_sublist l)
    have h1 := List.Sublist.filter (fun g => !(hasArb g)) hc
    rw [hidem] at h1
    have hperm : List.Perm (rankGames l) l := List.mergeSort_perm l keyLe
    have hlen : (l.filter fun g => !(hasArb g)).length
        = ((rankGames l).filter fun g => !(hasArb g)).length :=
      (hperm.filter _).length_eq.symm
    exact (h1.eq_of_length hlen).symm
  · intro g hg harb
    obtain ⟨m1, m2, m3⟩ := minFold_spec (arbProbs g) 2
    obtain ⟨mk, hmk_mem, hmk_some⟩ := List.any_eq_true.mp harb
    rcases Option.isSome_iff_exists.mp hmk_some with ⟨a, ha⟩
    have hp_mem : (1 / mk.2.best_a.price + 1 / mk.2.best_b.price)
        ∈ arbProbs g :=
      List.mem_filterMap.mpr ⟨mk, hmk_mem, by rw [ha]; rfl⟩
    have hwfg := hwf g hg mk hmk_mem hmk_some
    have hp_lt : 1 / mk.2.best_a.price + 1 / mk.2.best_b.price < 2 := by
      have hb1 : 1 / mk.2.best_a.price < 1 := by
        rw [div_lt_one (lt_trans one_pos hwfg.1)]
        exact hwfg.1
      have hb2 : 1 / mk.2.best_b.price < 1 := by
        rw [div_lt_one (lt_trans one_pos hwfg.2)]
        exact hwfg.2
      linarith
    have hgm : gameMinProb g
        = (arbProbs g).foldl (fun m q => if q < m then q else m) 2 :=
      sort_key_snd g
    constructor
    · rcases m3 with he | hm
      · exfalso
        have hle := m2 _ hp_mem
        rw [he] at hle
        linarith
      · rw [hgm]
        exact hm
    · intro p hp
      rw [hgm]
      exact m2 p hp

theorem C8_ranking_sort_witness :
    (∀ g ∈ ([⟨"G1", []⟩,
        ⟨"G2", [("m", ⟨⟨2, "b", "x"⟩, ⟨3, "c", "y"⟩, some ⟨1, 1, 1, 1⟩⟩)]⟩] :
          List GameResult), ∀ mk ∈ g.markets, mk.2.arb.isSome = true →
        1 < mk.2.best_a.price ∧ 1 < mk.2.best_b.price) ∧
    ((rankGames [⟨"G1", []⟩,
        ⟨"G2", [("m", ⟨⟨2, "b", "x"⟩, ⟨3, "c", "y"⟩, some ⟨1, 1, 1, 1⟩⟩)]⟩]).Pairwise
        (fun a b => hasArb b = true → hasArb a = true) ∧
      (rankGames [⟨"G1", []⟩,
        ⟨"G2", [("m", ⟨⟨2, "b", "x"⟩, ⟨3, "c", "y"⟩, some ⟨1, 1, 1, 1⟩⟩)]⟩]).Pairwise
        (fun a b => hasArb a = true → hasArb b = true →
          gameMinProb a ≤ gameMinProb b) ∧
      (rankGames [⟨"G1", []⟩,
        ⟨"G2", [("m", ⟨⟨2, "b", "x"⟩, ⟨3, "c", "y"⟩, some ⟨1, 1, 1, 1⟩⟩)]⟩]).filter
          (fun g => !(hasArb g))
        = ([⟨"G1", []⟩,
        ⟨"G2", [("m", ⟨⟨2, "b", "x"⟩, ⟨3, "c", "y"⟩, some ⟨1, 1, 1, 1⟩⟩)]⟩] :
          List GameResult).filter (fun g => !(hasArb g)) ∧
      ∀ g ∈ ([⟨"G1", []⟩,
        ⟨"G2", [("m", ⟨⟨2, "b", "x"⟩, ⟨3, "c", "y"⟩, some ⟨1, 1, 1, 1⟩⟩)]⟩] :
          List GameResult), hasArb g = true →
        gameMinProb g ∈ arbProbs g ∧ ∀ p ∈ arbProbs g, gameMinProb g ≤ p) := by
  constructor
  · intro g hg mk hmk hs
    simp only [List.mem_cons, List.not_mem_nil, or_false] at hg
    rcases hg with rfl | rfl
    · simp at hmk
    · simp only [List.mem_cons, List.not_mem_nil, or_false] at hmk
      subst hmk
      norm_num
  · refine C8_ranking_sort _ ?_
    intro g hg mk hmk hs
    simp only [List.mem_cons, List.not_mem_nil, or_false] at hg
    rcases hg with rfl | rfl
    · simp at hmk
    · simp only [List.mem_cons, List.not_mem_nil, or_false] at hmk
      subst hmk
      norm_num


theorem calculate_stakes_isSome_odds (total_budget odds_a odds_b : ℚ)
    (h : (calculate_stakes total_budget odds_a odds_b).isSome = true) :
    1 < odds_a ∧ 1 < odds_b := by
  by_cases h1 : odds_a ≤ 1 ∨ odds_b ≤ 1
  · unfold calculate_stakes at h
    rw [if_pos h1] at h
    simp at h
  · push_neg at h1
    exact h1

theorem scanStep_preserves_wf (game : Game) (total_budget : ℚ)
    (acc : List (String × MarketEntry)) (mk : String × String)
    (hacc : ∀ e ∈ acc, e.2.arb.isSome = true →
      1 < e.2.best_a.price ∧ 1 < e.2.best_b.price) :
    ∀ e ∈ scanStep game total_budget acc mk, e.2.arb.isSome = true →
      1 < e.2.best_a.price ∧ 1 < e.2.best_b.price := by
  intro e he
  simp only [scanStep] at he
  split_ifs at he with h1
  · exact hacc e he
  · rcases hfbo : find_best_odds (game.bookmakers.filterMap fun book =>
        (book.markets.find? fun m => m.key = mk.1).map fun me =>
          ({ title := book.title, markets := [me] } : Book)) with _ | ⟨ba, bb⟩
    · rw [hfbo] at he
      exact hacc e he
    · rw [hfbo] at he
      by_cases h2 : ba.price = 0
      · simp only [h2, if_true] at he
        exact hacc e he
      · simp only [h2, if_false, List.mem_append, List.mem_singleton] at he
        rcases he with he' | he'
        · exact hacc e he'
        · intro hsome
          rw [he'] at hsome ⊢
          exact calculate_stakes_isSome_odds _ _ _ hsome

/-- Every entry of a `scan_game_markets` result that carries an arbitrage
result has both best prices above 1 (the well-formedness `C8` assumes of
genuine game scan results). -/
theorem scan_game_markets_wf (game : Game)
    (markets : List (String × String)) (total_budget : ℚ) :
    ∀ e ∈ (scan_game_markets game markets total_budget).markets,
      e.2.arb.isSome = true →
        1 < e.2.best_a.price ∧ 1 < e.2.best_b.price := by
  have key : ∀ (ms : List (String × String))
      (acc : List (String × MarketEntry)),
      (∀ e ∈ acc, e.2.arb.isSome = true →
        1 < e.2.best_a.price ∧ 1 < e.2.best_b.price) →
      ∀ e ∈ ms.foldl (scanStep game total_budget) acc,
        e.2.arb.isSome = true →
          1 < e.2.best_a.price ∧ 1 < e.2.best_b.price := by
    intro ms
    induction ms with
    | nil => exact fun acc hacc => hacc
    | cons m ms ih =>
      intro acc hacc
      rw [List.foldl_cons]
      exact ih _ (scanStep_preserves_wf game total_budget acc m hacc)
  exact key markets [] (by simp)
